import Mathlib

/-!
Verification development for the pool-guy repository (poolguy package).

The definitions below are a shallow embedding of the parts of the source
relevant to the event pipeline: `Alert` comparisons and `to_dict`
(src/poolguy/twitchws.py), the CPython `heapq` push/pop used by
`asyncio.PriorityQueue`, the `AlertPriorityQueue` operations, the
`AlertFactory` registry, `NotificationHandler.__call__`, `MaxSizeDict`
and `TwitchWebsocket.handle_message`, `TwitchApi.unsubAllEvents` and
`TwitchWebsocket.handle_session_welcome`, `RequestHandler._request`
(src/poolguy/http.py), and `TokenHandler._token_request` /
`TokenHandler._callback_handler` (src/poolguy/oauth.py).

Machine floats (timestamps) only ever flow through comparisons here, so
they are embedded as integers; Python ints are embedded as `Int`.
-/

namespace PoolGuy

/-- Data carried by an `Alert` instance (src/poolguy/twitchws.py, class
`Alert`): `message_id`, `channel`, `data` (opaque payload), `timestamp`,
and the instance's `priority` (class attribute, default 3). -/
structure Alert where
  message_id : String
  channel : String
  data : String
  timestamp : Int
  priority : Int
deriving DecidableEq, Inhabited

/-- `Alert.__lt__`: compare by priority when priorities differ, otherwise
by timestamp.  `message_id` is not consulted. -/
def Alert.ltB (a b : Alert) : Bool :=
  if a.priority ≠ b.priority then decide (a.priority < b.priority)
  else decide (a.timestamp < b.timestamp)

/-- `Alert.__eq__`: equality of `(priority, timestamp, message_id)`. -/
def Alert.eqB (a b : Alert) : Bool :=
  a.priority == b.priority && a.timestamp == b.timestamp && a.message_id == b.message_id

/-- Heap entries are the tuples `(alert.priority, alert)` that
`AlertPriorityQueue.put` pushes. -/
abbrev Item := Int × Alert

/-- Python tuple `<` on `(priority, alert)`: the first differing component
decides; equal tuples compare `False`. -/
def itemLtB (x y : Item) : Bool :=
  if x.1 = y.1 then
    if Alert.eqB x.2 y.2 then false else Alert.ltB x.2 y.2
  else decide (x.1 < y.1)

/-- Python tuple `==` on `(priority, alert)` (used by `remove_by_id`'s
`item != item_to_remove` and by `get`'s id lookup). -/
def itemEqB (x y : Item) : Bool :=
  x.1 == y.1 && Alert.eqB x.2 y.2

/-! ## CPython `heapq` (the engine of `asyncio.PriorityQueue`)

`AlertPriorityQueue` subclasses `asyncio.PriorityQueue`, whose `_put` is
`heapq.heappush` and `_get` is `heapq.heappop` on a plain list.  The
functions below are those library routines, transcribed on `List Item`
(`heap[i]` with a default that is never reached on the valid indices the
algorithms use, `heap[i] = v` as `List.set`). -/

/-- `heapq._siftdown` main loop: walk `pos` toward `startpos`, moving each
parent larger than `newitem` down into the hole; returns the updated list
and the final hole position (the caller writes `newitem` there).  The
`fuel` argument only makes the recursion structural: each iteration
strictly decreases `pos`, so fuel `pos` is never exhausted before the
loop condition `startpos < pos` fails, and the caller passes `pos`. -/
def siftdownLoop (newitem : Item) : Nat → List Item → Nat → Nat →
    List Item × Nat
  | 0, heap, _, pos => (heap, pos)
  | fuel + 1, heap, startpos, pos =>
    if startpos < pos then
      let parentpos := (pos - 1) / 2
      let parent := heap.getD parentpos default
      if itemLtB newitem parent then
        siftdownLoop newitem fuel (heap.set pos parent) startpos parentpos
      else (heap, pos)
    else (heap, pos)

/-- `heapq._siftdown(heap, startpos, pos)`. -/
def siftdown (heap : List Item) (startpos pos : Nat) : List Item :=
  let newitem := heap.getD pos default
  let r := siftdownLoop newitem pos heap startpos pos
  r.1.set r.2 newitem

/-- `heapq._siftup` main loop: bubble the hole at `pos` down to a leaf,
always moving the smaller child up; returns the updated list and the final
hole position.  As with `siftdownLoop`, `fuel` only makes the recursion
structural: `pos` strictly increases toward `endpos`, so fuel `endpos`
(what the caller passes) is never exhausted before `2*pos+1 < endpos`
fails. -/
def siftupLoop : Nat → List Item → Nat → Nat → List Item × Nat
  | 0, heap, pos, _ => (heap, pos)
  | fuel + 1, heap, pos, endpos =>
    if 2 * pos + 1 < endpos then
      let childpos := 2 * pos + 1
      let childpos :=
        if decide (childpos + 1 < endpos) &&
            !(itemLtB (heap.getD childpos default) (heap.getD (childpos + 1) default))
        then childpos + 1 else childpos
      siftupLoop fuel (heap.set pos (heap.getD childpos default)) childpos endpos
    else (heap, pos)

/-- `heapq._siftup(heap, pos)`: move the hole to a leaf, drop `newitem`
there, then restore it upward with `_siftdown`. -/
def siftup (heap : List Item) (pos : Nat) : List Item :=
  let endpos := heap.length
  let newitem := heap.getD pos default
  let r := siftupLoop endpos heap pos endpos
  siftdown (r.1.set r.2 newitem) pos r.2

/-- `heapq.heappush`: append, then sift the new item toward the root. -/
def heappush (heap : List Item) (item : Item) : List Item :=
  let heap := heap ++ [item]
  siftdown heap 0 (heap.length - 1)

/-- `heapq.heappop`: pop the last element; if the heap is still non-empty,
return the root, move the last element there and sift it down.  An empty
heap yields `none` (`asyncio.PriorityQueue.get` suspends instead of
popping an empty heap). -/
def heappop (heap : List Item) : Option (Item × List Item) :=
  match heap with
  | [] => none
  | _ :: _ =>
    let lastelt := heap.getLast?.getD default
    let heap := heap.dropLast
    match heap with
    | [] => some (lastelt, [])
    | _ :: _ =>
      let returnitem := heap.getD 0 default
      let heap := heap.set 0 lastelt
      some (returnitem, siftup heap 0)

/-- Repeatedly `heappop` (the drain loop `while not self.empty():
await super().get()` of `remove_by_id` / `_load_state`), with fuel. -/
def popAllGo : Nat → List Item → List Item
  | 0, _ => []
  | fuel + 1, heap =>
    match heappop heap with
    | none => []
    | some (x, h) => x :: popAllGo fuel h

/-- All items of a heap in pop order. -/
def popAll (heap : List Item) : List Item := popAllGo heap.length heap

/-! ## Alert registry (`AlertFactory`) -/

/-- The value of an Alert class's `store` attribute: the base class sets the
boolean `store = False`, subclasses may set a boolean or define `store` as
an async method (as `GenericAlert` does). -/
inductive StoreAttr where
  | boolAttr (b : Bool)
  | asyncMethod
deriving DecidableEq, Inhabited

/-- Python truthiness of the `store` attribute: a bound method is truthy. -/
def StoreAttr.truthy : StoreAttr → Bool
  | .boolAttr b => b
  | .asyncMethod => true

/-- The class-level attributes of an Alert subclass that the pipeline
reads: `priority`, `queue_skip`, `store`. -/
structure AlertClass where
  priority : Int
  queue_skip : Bool
  store : StoreAttr
deriving DecidableEq, Inhabited

/-- `GenericAlert`: inherits `priority = 3` and `store`'s slot is overridden
by an async `store` method; sets `queue_skip = True`. -/
def genericAlertClass : AlertClass :=
  { priority := 3, queue_skip := true, store := .asyncMethod }

/-- `AlertFactory._alert_classes`: a dict from channel (topic) string to the
registered Alert class. -/
abbrev Registry := List (String × AlertClass)

/-- Exact-string dict lookup `channel in AlertFactory._alert_classes`. -/
def lookupClass (reg : Registry) (channel : String) : Option AlertClass :=
  (reg.find? (fun kv => kv.1 == channel)).map (·.2)

/-- `AlertFactory.create_alert`: instantiate the registered class for the
channel, falling back to `GenericAlert` when none is registered. -/
def create_alert (reg : Registry) (message_id channel data : String)
    (timestamp : Int) : Alert × AlertClass :=
  match lookupClass reg channel with
  | some cls =>
      ({ message_id := message_id, channel := channel, data := data,
         timestamp := timestamp, priority := cls.priority }, cls)
  | none =>
      ({ message_id := message_id, channel := channel, data := data,
         timestamp := timestamp, priority := genericAlertClass.priority },
       genericAlertClass)

/-! ## `AlertPriorityQueue` -/

/-- `Alert.to_dict`: the dictionary written into the queue snapshot. -/
structure AlertDict where
  message_id : String
  channel : String
  data : String
  timestamp : Int
  priority : Int
deriving DecidableEq, Inhabited

def Alert.to_dict (a : Alert) : AlertDict :=
  { message_id := a.message_id, channel := a.channel, data := a.data,
    timestamp := a.timestamp, priority := a.priority }

/-- State of an `AlertPriorityQueue`: the underlying heap list, the
insertion-ordered `_id_map` (`alert_id ↦ (priority, alert)`), whether a
storage backend is configured, and the queue snapshot currently held by
that backend (`none` when nothing was ever saved). -/
structure APQueue where
  heap : List Item
  idMap : List (String × Item)
  hasStorage : Bool
  saved : Option (List AlertDict)
deriving DecidableEq, Inhabited

/-- `AlertPriorityQueue._save_state`: when storage is configured, overwrite
the `"alerts"` snapshot with `[alert.to_dict() for _, alert in
self._id_map.values()]` (dict values in insertion order). -/
def saveState (q : APQueue) : APQueue :=
  if q.hasStorage then
    { q with saved := some (q.idMap.map (fun kv => kv.2.2.to_dict)) }
  else q

/-- `AlertPriorityQueue.put`: push `(alert.priority, alert)`, record it in
`_id_map` under a fresh uuid (`alertId` stands for `str(uuid.uuid4())`),
snapshot, and return the id. -/
def APQueue.put (q : APQueue) (alertId : String) (alert : Alert) :
    APQueue × String :=
  let item : Item := (alert.priority, alert)
  let q := { q with heap := heappush q.heap item,
                    idMap := q.idMap ++ [(alertId, item)] }
  (saveState q, alertId)

/-- The id-lookup loop of `AlertPriorityQueue.get`: first `_id_map` entry
(insertion order) whose value `== (priority, alert)` under tuple equality. -/
def findIdFor (idMap : List (String × Item)) (item : Item) : Option String :=
  (idMap.find? (fun kv => itemEqB kv.2 item)).map (·.1)

/-- `AlertPriorityQueue.get`: pop the heap (suspends, i.e. `none`, when
empty), delete the matching `_id_map` entry if one is found, snapshot, and
return `(found_id, alert)`. -/
def APQueue.get (q : APQueue) : Option ((Option String × Alert) × APQueue) :=
  match heappop q.heap with
  | none => none
  | some (item, heap) =>
    let foundId := findIdFor q.idMap item
    let idMap :=
      match foundId with
      | some k => q.idMap.eraseP (fun kv => kv.1 == k)
      | none => q.idMap
    some ((foundId, item.2), saveState { q with heap := heap, idMap := idMap })

/-- `AlertPriorityQueue.remove_by_id`: `False` when the id is unknown;
otherwise pop the id from `_id_map`, drain the heap keeping (in pop order)
every item with `item != item_to_remove` (tuple equality, hence
`Alert.__eq__` on `(priority, timestamp, message_id)`), re-push the kept
items, snapshot, and return `True`. -/
def APQueue.remove_by_id (q : APQueue) (alertId : String) : Bool × APQueue :=
  match q.idMap.find? (fun kv => kv.1 == alertId) with
  | none => (false, q)
  | some kv =>
    let itemToRemove := kv.2
    let idMap := q.idMap.eraseP (fun p => p.1 == alertId)
    let tempItems := (popAll q.heap).filter (fun it => !(itemEqB it itemToRemove))
    let heap := tempItems.foldl heappush []
    (true, saveState { q with heap := heap, idMap := idMap })

/-- The restore loop of `AlertPriorityQueue._load_state`: re-insert an
alert rebuilt by `AlertFactory.create_alert` from each saved dict (the
saved `priority` field is not consulted) under fresh uuids (`ids n`
stands for the n-th `str(uuid.uuid4())`). -/
def loadStateGo (reg : Registry) (ids : Nat → String) :
    Nat → List AlertDict → APQueue → APQueue
  | _, [], q => q
  | n, d :: rest, q =>
    let alert := (create_alert reg d.message_id d.channel d.data d.timestamp).1
    let item : Item := (alert.priority, alert)
    loadStateGo reg ids (n + 1) rest
      { q with heap := heappush q.heap item,
               idMap := q.idMap ++ [(ids n, item)] }

/-- `AlertPriorityQueue._load_state` entry: do nothing without storage or
when the loaded `"alerts"` snapshot is absent/empty; otherwise drain the
queue, clear `_id_map`, and run the `loadStateGo` restore loop. -/
def APQueue.loadState (q : APQueue) (reg : Registry) (ids : Nat → String) :
    APQueue :=
  if q.hasStorage = false then q
  else
    let savedItems := q.saved.getD []
    if savedItems = [] then q
    else loadStateGo reg ids 0 savedItems { q with heap := [], idMap := [] }

/-- The sequence of alerts successive `get` calls return, i.e. the `get()`
order of the queue. -/
def APQueue.drainGo : Nat → APQueue → List Alert
  | 0, _ => []
  | fuel + 1, q =>
    match q.get with
    | none => []
    | some ((_, alert), q2) => alert :: APQueue.drainGo fuel q2

/-- All alerts of the queue in `get()` order. -/
def APQueue.drain (q : APQueue) : List Alert := APQueue.drainGo q.heap.length q

/-! ## `NotificationHandler.__call__` -/

/-- Python substring containment `needle in hay` on character lists. -/
def hasSubstr : List Char → List Char → Bool
  | hay, needle =>
    needle.isPrefixOf hay ||
      match hay with
      | [] => false
      | _ :: t => hasSubstr t needle

/-- What one notification envelope produced: whether the archive write ran,
whether the alert was enqueued, whether `process` was started as a
detached task, whether the call aborted with a `TypeError` (a truthy
non-callable `store` reaching `alert.store()`), and the resulting queue. -/
structure NotifOutcome where
  archived : Bool
  enqueued : Bool
  detachedProcess : Bool
  raisedTypeError : Bool
  queue : APQueue
deriving DecidableEq, Inhabited

/-- `NotificationHandler.__call__`: build the event from the envelope and
create the alert.  When storage is configured, `alert.store` is truthy and
`"test_" not in message_id`, run the store branch: an async-method `store`
is awaited (the archive write); a truthy boolean `store` fails
`asyncio.iscoroutinefunction`, so `alert.store()` calls a bool — a
`TypeError` that aborts the call with no archive write and before any
enqueue.  Otherwise continue: the alert is enqueued unless `queue_skip`,
in which case `process` is started as a detached task. -/
def notificationCall (reg : Registry) (q : APQueue)
    (message_id subType eventData : String) (timestamp : Int)
    (freshId : String) : NotifOutcome :=
  let created := create_alert reg message_id subType eventData timestamp
  let alert := created.1
  let cls := created.2
  let storeGuard :=
    q.hasStorage && cls.store.truthy && !(hasSubstr message_id.data "test_".data)
  if storeGuard then
    match cls.store with
    | .boolAttr _ =>
      { archived := false, enqueued := false, detachedProcess := false,
        raisedTypeError := true, queue := q }
    | .asyncMethod =>
      if cls.queue_skip = false then
        { archived := true, enqueued := true, detachedProcess := false,
          raisedTypeError := false, queue := (q.put freshId alert).1 }
      else
        { archived := true, enqueued := false, detachedProcess := true,
          raisedTypeError := false, queue := q }
  else
    if cls.queue_skip = false then
      { archived := false, enqueued := true, detachedProcess := false,
        raisedTypeError := false, queue := (q.put freshId alert).1 }
    else
      { archived := false, enqueued := false, detachedProcess := true,
        raisedTypeError := false, queue := q }

/-! ## `MaxSizeDict` and `TwitchWebsocket.handle_message` -/

/-- `MaxSizeDict.__setitem__` restricted to its key sequence: an existing
key is moved to the end; a new key evicts the oldest entry first when the
dict is at (or beyond) `maxSize`, then is appended. -/
def maxSizeSetItem (maxSize : Nat) (keys : List String) (k : String) :
    List String :=
  if k ∈ keys then keys.erase k ++ [k]
  else if maxSize ≤ keys.length then keys.drop 1 ++ [k]
  else keys ++ [k]

/-- An EventSub websocket envelope, reduced to the metadata fields
`handle_message` consults. -/
structure WsMessage where
  message_id : String
  message_type : String
deriving DecidableEq, Inhabited

/-- `TwitchWebsocket.handle_message` at the dedup layer: an envelope whose
`message_id` is already in `_seen_messages` is dropped (`false`, cache
unchanged); otherwise the id is inserted into the capacity-15
`MaxSizeDict` and the message is dispatched by type (`true`). -/
def handle_message (seen : List String) (m : WsMessage) :
    List String × Bool :=
  if m.message_id ∈ seen then (seen, false)
  else (maxSizeSetItem 15 seen m.message_id, true)

/-- Fold `handle_message` over a trace, keeping the seen-ids cache. -/
def runSeen (seen : List String) (ms : List WsMessage) : List String :=
  ms.foldl (fun c m => (handle_message c m).1) seen

/-- How many envelopes with id `x` in the trace are dispatched (not
dropped by the dedup cache).  Each dispatched notification leads to one
`NotificationHandler` invocation, hence at most one `process`/archive
write for that envelope. -/
def dispatchCount (x : String) (seen : List String) : List WsMessage → Nat
  | [] => 0
  | m :: ms =>
    let r := handle_message seen m
    (if r.2 && m.message_id == x then 1 else 0) + dispatchCount x r.1 ms

/-! ## `TwitchApi.unsubAllEvents` and `handle_session_welcome` -/

/-- A server-side EventSub subscription record, reduced to the fields
`unsubAllEvents` consults: `id`, `type`, `status`, and
`transport["session_id"]` (`none` when the transport has no session id). -/
structure ServerSub where
  id : String
  type : String
  status : String
  transportSessionId : Option String
deriving DecidableEq, Inhabited

/-- `TwitchApi.unsubAllEvents`: walk the listed subscriptions; collect in
`out` those whose transport session id equals the (truthy) `session_id`
argument; schedule a `deleteEventSub` for every subscription whose status
is not `"enabled"`.  Returns `(out, deleted ids)`. -/
def unsubAllEvents (subs : List ServerSub) (session_id : Option String) :
    List ServerSub × List String :=
  subs.foldl
    (fun acc sub =>
      let keep :=
        match sub.transportSessionId, session_id with
        | some t, some s => s == t
        | _, _ => false
      let out := if keep then acc.1 ++ [sub] else acc.1
      let dels := if sub.status == "enabled" then acc.2 else acc.2 ++ [sub.id]
      (out, dels))
    ([], [])

/-- A configured channel entry: either a list of broadcaster ids (possibly
`None`) or a non-list value (one subscription with the default bid). -/
inductive ChanSpec where
  | bidList (bids : List (Option String))
  | single
deriving DecidableEq, Inhabited

/-- The `createEventSub` calls the welcome handler would issue for the
configured channels: one per bid for list entries, one with the default
bid otherwise. -/
def welcomeCreates (channels : List (String × ChanSpec)) :
    List (String × Option String) :=
  channels.foldl
    (fun acc c =>
      match c.2 with
      | .bidList bids => acc ++ bids.map (fun b => (c.1, b))
      | .single => acc ++ [(c.1, none)])
    []

/-- `TwitchWebsocket.handle_session_welcome`: reconcile via
`unsubAllEvents(session_id)`; only when the returned `current_subs` list is
empty, create a subscription for every configured channel entry.  Returns
`(current_subs, deleted ids, create calls)`. -/
def handle_session_welcome (channels : List (String × ChanSpec))
    (subs : List ServerSub) (sessionId : String) :
    List ServerSub × List String × List (String × Option String) :=
  let r := unsubAllEvents subs (some sessionId)
  let creates := if r.1 = [] then welcomeCreates channels else []
  (r.1, r.2, creates)

/-! ## `RequestHandler._request` (src/poolguy/http.py) -/

/-- What one authenticated request run produced.  `interrupted` marks that
the modelled transport stream ran out while `_request` was still
retrying: the recursion in the source has no depth bound, so a run is
only ever ended by a non-401/429 response. -/
inductive ReqOutcome where
  | success (refreshes : Nat)
  | httpError (status : Nat) (refreshes : Nat)
  | interrupted (refreshes : Nat)
deriving DecidableEq, Inhabited

/-- `RequestHandler._request`, driven by the list of statuses the
transport answers on successive attempts: a 401 triggers
`token._refresh()` and a recursive re-issue; a 429 sleeps and re-issues;
any other status ≥ 400 raises via `raise_for_status`; otherwise the
response is returned.  `refreshes` counts the `_refresh` calls made. -/
def requestFlow (refreshes : Nat) : List Nat → ReqOutcome
  | [] => .interrupted refreshes
  | status :: rest =>
    if status == 401 then requestFlow (refreshes + 1) rest
    else if status == 429 then requestFlow refreshes rest
    else if 400 ≤ status then .httpError status refreshes
    else .success refreshes

/-! ## `TokenHandler._token_request` (src/poolguy/oauth.py) -/

/-- A token dictionary: `refresh_token` may be absent (`none`);
`expires_time` is only present after `_token_request` sets it. -/
structure PyToken where
  access_token : String
  refresh_token : Option String
  expires_in : Int
  expires_time : Option Int
deriving DecidableEq, Inhabited

/-- A token-endpoint reply: HTTP status and the parsed JSON body. -/
structure TokenResponse where
  status : Nat
  body : PyToken
deriving DecidableEq, Inhabited

/-- Result of `_token_request`: the new token persisted under a storage
name, or the `Exception` raised on a non-200 status, or the
`KeyError`/`NameError` paths where a needed `refresh_token` is absent. -/
inductive TokenReqResult where
  | ok (token : PyToken) (savedAs : String)
  | requestFailed
  | missingRefreshToken
deriving DecidableEq, Inhabited

/-- `TokenHandler._token_request`: raise on a non-200 reply; remember the
previous token's `refresh_token` when a previous token is held; take the
response body as the new token, restoring the remembered `refresh_token`
when the response omits one; set `expires_time = time.time() +
int(expires_in)`; persist with `save_token(token, name="twitch")`. -/
def tokenRequest (prev : Option PyToken) (resp : TokenResponse) (now : Int) :
    TokenReqResult :=
  if resp.status ≠ 200 then .requestFailed
  else
    match prev with
    | some p =>
      match p.refresh_token with
      | none => .missingRefreshToken
      | some r =>
        let tok := resp.body
        let tok :=
          if tok.refresh_token = none then { tok with refresh_token := some r }
          else tok
        .ok { tok with expires_time := some (now + tok.expires_in) } "twitch"
    | none =>
      let tok := resp.body
      match tok.refresh_token with
      | none => .missingRefreshToken
      | some _ =>
        .ok { tok with expires_time := some (now + tok.expires_in) } "twitch"

/-! ## `TokenHandler._callback_handler` (src/poolguy/oauth.py) -/

/-- The query parameters of an OAuth redirect callback. -/
structure CallbackQuery where
  state : Option String
  error : Option String
  code : Option String
deriving DecidableEq, Inhabited

/-- The handler-visible authorization state: the generated `_state`, the
stored `_auth_code`, and the pending `_auth_future`. -/
structure AuthState where
  genState : Option String
  authCode : Option String
  futureDone : Bool
  futureResult : Option String
deriving DecidableEq, Inhabited

/-- Python truthiness of an optional query string. -/
def optTruthy : Option String → Bool
  | none => false
  | some s => s ≠ ""

/-- `TokenHandler._callback_handler`: a query `state` that differs from the
generated `_state` answers 400 before anything else; an `error` parameter
answers 400; otherwise `_auth_code` is taken from the query and, when
truthy and the future is unresolved, resolves the future.  Returns the
HTTP status and the updated state. -/
def callback_handler (st : AuthState) (q : CallbackQuery) : Nat × AuthState :=
  if q.state ≠ st.genState then (400, st)
  else if q.error.isSome then (400, st)
  else
    let st := { st with authCode := q.code }
    if optTruthy st.authCode && !st.futureDone then
      (200, { st with futureDone := true, futureResult := st.authCode })
    else (200, st)

/-! ## Scenario plumbing for the queue snapshot round trip -/

/-- The envelope-derived fields a notification contributes to an alert. -/
structure NotifEvent where
  message_id : String
  channel : String
  data : String
  timestamp : Int
deriving DecidableEq, Inhabited

/-- The alert the factory builds for an event. -/
def eventAlert (reg : Registry) (e : NotifEvent) : Alert :=
  (create_alert reg e.message_id e.channel e.data e.timestamp).1

/-- The heap entry `put` pushes for an event's alert. -/
def eventItem (reg : Registry) (e : NotifEvent) : Item :=
  ((eventAlert reg e).priority, eventAlert reg e)

/-- `put` each event's alert in order (uuids supplied by `ids`). -/
def buildQueueGo (reg : Registry) (ids : Nat → String) :
    Nat → List NotifEvent → APQueue → APQueue
  | _, [], q => q
  | n, e :: rest, q =>
    buildQueueGo reg ids (n + 1) rest (q.put (ids n) (eventAlert reg e)).1

/-- A storage-backed queue populated by `put`-ing the events' alerts. -/
def buildQueue (reg : Registry) (ids : Nat → String)
    (events : List NotifEvent) : APQueue :=
  buildQueueGo reg ids 0 events { heap := [], idMap := [], hasStorage := true,
                                  saved := none }

/-- The `_id_map` entries the puts of `buildQueueGo` append. -/
def taggedItems (reg : Registry) (ids : Nat → String) :
    Nat → List NotifEvent → List (String × Item)
  | _, [] => []
  | n, e :: rest => (ids n, eventItem reg e) :: taggedItems reg ids (n + 1) rest

/-- The heap entry the `_load_state` restore loop re-inserts for one saved
dict. -/
def dictItem (reg : Registry) (d : AlertDict) : Item :=
  let alert := (create_alert reg d.message_id d.channel d.data d.timestamp).1
  (alert.priority, alert)

end PoolGuy
namespace PoolGuy

/-! ## Helper lemmas: multiset effect of `List.set` -/

/-- Writing `x` at an in-range index trades the old element for `x` in the
element counts. -/
theorem count_set {α : Type} [DecidableEq α] :
    ∀ (l : List α) (i : Nat) (x a : α) (h : i < l.length),
      (l.set i x).count a + (if l[i] = a then 1 else 0)
        = l.count a + (if x = a then 1 else 0) := by
  intro l
  induction l with
  | nil => intro i x a h; simp at h
  | cons hd tl ih =>
    intro i x a h
    cases i with
    | zero =>
      simp only [List.set_cons_zero, List.count_cons, List.getElem_cons_zero,
        beq_iff_eq]
      omega
    | succ n =>
      simp only [List.set_cons_succ, List.count_cons, List.getElem_cons_succ,
        beq_iff_eq]
      have := ih n x a (by simpa using h)
      omega

/-- Writing back the element already present leaves the list unchanged. -/
theorem set_self {α : Type} :
    ∀ (l : List α) (i : Nat) (h : i < l.length), l.set i l[i] = l := by
  intro l
  induction l with
  | nil => intro i h; simp at h
  | cons hd tl ih =>
    intro i h
    cases i with
    | zero => simp
    | succ n => simp [ih n (by simpa using h)]

/-- The transposition underlying one hole move of the sift loops: copy the
entry at `j` over position `i`, then overwrite position `j` with `x`; up to
permutation this is just overwriting position `i` with `x`. -/
theorem set_set_perm {α : Type} [DecidableEq α] (l : List α) (i j : Nat)
    (x : α) (hi : i < l.length) (hj : j < l.length) (hij : i ≠ j) :
    ((l.set i l[j]).set j x).Perm (l.set i x) := by
  rw [List.perm_iff_count]
  intro a
  have hlen : (l.set i l[j]).length = l.length := List.length_set ..
  have h1 := count_set (l.set i l[j]) j x a (by omega)
  have h2 := count_set l i (l[j]) a hi
  have h3 := count_set l i x a hi
  have hjlt : j < (l.set i l[j]).length := by omega
  have hget : (l.set i l[j])[j] = l[j] := List.getElem_set_ne hij _
  rw [hget] at h1
  omega

/-! ## The sift loops permute the heap contents -/

/-- `siftdownLoop` moves entries around a hole: filling the final hole with
any `x` yields a permutation of the input with its hole at `pos` filled by
`x`; length and in-range position are preserved. -/
theorem siftdownLoop_spec (newitem : Item) :
    ∀ (fuel : Nat) (heap : List Item) (startpos pos : Nat),
      pos < heap.length →
      (siftdownLoop newitem fuel heap startpos pos).2 <
        (siftdownLoop newitem fuel heap startpos pos).1.length ∧
      (siftdownLoop newitem fuel heap startpos pos).1.length = heap.length ∧
      ∀ x, ((siftdownLoop newitem fuel heap startpos pos).1.set
              (siftdownLoop newitem fuel heap startpos pos).2 x).Perm
            (heap.set pos x) := by
  intro fuel
  induction fuel with
  | zero =>
    intro heap startpos pos hpos
    exact ⟨hpos, rfl, fun x => List.Perm.refl _⟩
  | succ n ih =>
    intro heap startpos pos hpos
    simp only [siftdownLoop]
    by_cases hsp : startpos < pos
    · simp only [if_pos hsp]
      by_cases hlt : itemLtB newitem (heap.getD ((pos - 1) / 2) default)
      · simp only [if_pos hlt]
        have hpar : (pos - 1) / 2 < pos :=
          Nat.lt_of_le_of_lt (Nat.div_le_self _ _) (by omega)
        have hpar2 : (pos - 1) / 2 <
            (heap.set pos (heap.getD ((pos - 1) / 2) default)).length := by
          rw [List.length_set]; omega
        obtain ⟨ih1, ih2, ih3⟩ :=
          ih (heap.set pos (heap.getD ((pos - 1) / 2) default)) startpos
            ((pos - 1) / 2) hpar2
        refine ⟨ih1, by rw [ih2, List.length_set], fun x => ?_⟩
        refine (ih3 x).trans ?_
        have hparlen : (pos - 1) / 2 < heap.length := by omega
        have hgd : heap.getD ((pos - 1) / 2) default = heap[(pos - 1) / 2] :=
          List.getD_eq_getElem heap default hparlen
        rw [hgd]
        exact set_set_perm heap pos ((pos - 1) / 2) x hpos hparlen (by omega)
      · simp only [if_neg hlt]
        exact ⟨hpos, by simp, fun x => List.Perm.refl _⟩
    · simp only [if_neg hsp]
      exact ⟨hpos, by simp, fun x => List.Perm.refl _⟩

/-- `heapq._siftdown` permutes the heap and preserves its length. -/
theorem siftdown_perm (heap : List Item) (sp pos : Nat)
    (h : pos < heap.length) :
    (siftdown heap sp pos).Perm heap ∧
    (siftdown heap sp pos).length = heap.length := by
  obtain ⟨h1, h2, h3⟩ :=
    siftdownLoop_spec (heap.getD pos default) pos heap sp pos h
  have hback : heap.set pos (heap.getD pos default) = heap := by
    rw [List.getD_eq_getElem heap default h]
    exact set_self heap pos h
  have hperm := h3 (heap.getD pos default)
  rw [hback] at hperm
  constructor
  · simpa only [siftdown] using hperm
  · simp only [siftdown, List.length_set]
    exact h2

/-- `siftupLoop` moves entries around a hole, exactly as `siftdownLoop`. -/
theorem siftupLoop_spec :
    ∀ (fuel : Nat) (heap : List Item) (pos endpos : Nat),
      pos < heap.length → endpos ≤ heap.length →
      (siftupLoop fuel heap pos endpos).2 <
        (siftupLoop fuel heap pos endpos).1.length ∧
      (siftupLoop fuel heap pos endpos).1.length = heap.length ∧
      ∀ x, ((siftupLoop fuel heap pos endpos).1.set
              (siftupLoop fuel heap pos endpos).2 x).Perm
            (heap.set pos x) := by
  intro fuel
  induction fuel with
  | zero =>
    intro heap pos endpos hpos _
    exact ⟨hpos, rfl, fun x => List.Perm.refl _⟩
  | succ n ih =>
    intro heap pos endpos hpos hend
    simp only [siftupLoop]
    by_cases hc : 2 * pos + 1 < endpos
    · simp only [if_pos hc]
      set childpos := if decide (2 * pos + 1 + 1 < endpos) &&
          !(itemLtB (heap.getD (2 * pos + 1) default)
              (heap.getD (2 * pos + 1 + 1) default))
        then 2 * pos + 1 + 1 else 2 * pos + 1 with hchild
      have hcp : childpos < endpos := by
        rw [hchild]
        split
        next hh =>
          have hand := (Bool.and_eq_true _ _).mp hh
          have h1 := of_decide_eq_true hand.1
          omega
        next => omega
      have hcpos : pos < childpos := by
        rw [hchild]; split <;> omega
      have hcl : childpos < heap.length := by omega
      have hcl2 : childpos <
          (heap.set pos (heap.getD childpos default)).length := by
        rw [List.length_set]; omega
      obtain ⟨ih1, ih2, ih3⟩ :=
        ih (heap.set pos (heap.getD childpos default)) childpos endpos hcl2
          (by rw [List.length_set]; exact hend)
      refine ⟨ih1, by rw [ih2, List.length_set], fun x => ?_⟩
      refine (ih3 x).trans ?_
      have hgd : heap.getD childpos default = heap[childpos] :=
        List.getD_eq_getElem heap default hcl
      rw [hgd]
      exact set_set_perm heap pos childpos x hpos hcl (by omega)
    · simp only [if_neg hc]
      exact ⟨hpos, by simp, fun x => List.Perm.refl _⟩

/-- `heapq._siftup` permutes the heap and preserves its length. -/
theorem siftup_perm (heap : List Item) (pos : Nat) (h : pos < heap.length) :
    (siftup heap pos).Perm heap ∧ (siftup heap pos).length = heap.length := by
  obtain ⟨h1, h2, h3⟩ := siftupLoop_spec heap.length heap pos heap.length h le_rfl
  have hback : heap.set pos (heap.getD pos default) = heap := by
    rw [List.getD_eq_getElem heap default h]
    exact set_self heap pos h
  have hperm := h3 (heap.getD pos default)
  rw [hback] at hperm
  have hlen1 : ((siftupLoop heap.length heap pos heap.length).1.set
      (siftupLoop heap.length heap pos heap.length).2
      (heap.getD pos default)).length = heap.length := by
    rw [List.length_set]; exact h2
  obtain ⟨p1, p2⟩ := siftdown_perm
    ((siftupLoop heap.length heap pos heap.length).1.set
      (siftupLoop heap.length heap pos heap.length).2 (heap.getD pos default))
    pos (siftupLoop heap.length heap pos heap.length).2
    (by rw [List.length_set]; exact h1)
  constructor
  · simpa only [siftup] using p1.trans hperm
  · simp only [siftup]
    rw [p2, hlen1]

end PoolGuy
namespace PoolGuy

/-- `heappush` adds exactly the pushed item, up to permutation. -/
theorem heappush_perm (heap : List Item) (x : Item) :
    (heappush heap x).Perm (x :: heap) ∧
    (heappush heap x).length = heap.length + 1 := by
  have hlen : (heap ++ [x]).length = heap.length + 1 := by simp
  have hpos : heap.length < (heap ++ [x]).length := by omega
  obtain ⟨p1, p2⟩ := siftdown_perm (heap ++ [x]) 0 heap.length hpos
  have hgoal : heappush heap x = siftdown (heap ++ [x]) 0 heap.length := by
    simp only [heappush, hlen, Nat.add_sub_cancel]
  rw [hgoal]
  exact ⟨p1.trans (List.perm_append_singleton x heap), by omega⟩

/-- `heappop` yields `none` exactly on the empty heap. -/
theorem heappop_eq_none (heap : List Item) : heappop heap = none ↔ heap = [] := by
  cases heap with
  | nil => simp [heappop]
  | cons hd tl =>
    constructor
    · intro h
      simp only [heappop] at h
      split at h <;> simp_all
    · intro h; simp at h

/-- `heappop` removes exactly the returned item, up to permutation, and
shrinks the heap by one. -/
theorem heappop_spec (heap : List Item) (it : Item) (h2 : List Item)
    (h : heappop heap = some (it, h2)) :
    heap.Perm (it :: h2) ∧ h2.length + 1 = heap.length := by
  cases heap with
  | nil => simp [heappop] at h
  | cons hd tl =>
    have hne : hd :: tl ≠ ([] : List Item) := by simp
    have hlast : (hd :: tl).getLast?.getD default = (hd :: tl).getLast hne := by
      rw [List.getLast?_eq_getLast _ hne]; rfl
    simp only [heappop, hlast] at h
    rcases hdl : (hd :: tl).dropLast with _ | ⟨d, ds⟩
    · rw [hdl] at h
      simp only [Option.some.injEq, Prod.mk.injEq] at h
      obtain ⟨h1, h3⟩ := h
      have htl : tl = [] := by
        cases tl with
        | nil => rfl
        | cons a b => simp [List.dropLast] at hdl
      subst htl
      have : (hd :: ([] : List Item)).getLast hne = hd := rfl
      rw [this] at h1
      subst h1; subst h3
      exact ⟨List.Perm.refl _, rfl⟩
    · rw [hdl] at h
      simp only [Option.some.injEq, Prod.mk.injEq] at h
      obtain ⟨h1, h3⟩ := h
      have hget0 : (d :: ds).getD 0 default = d := rfl
      rw [hget0] at h1
      have hsetlen : ((d :: ds).set 0 ((hd :: tl).getLast hne)).length
          = ds.length + 1 := by simp
      have hpos0 : (0 : Nat) < ((d :: ds).set 0 ((hd :: tl).getLast hne)).length := by
        simp
      obtain ⟨p1, p2⟩ := siftup_perm ((d :: ds).set 0 ((hd :: tl).getLast hne)) 0 hpos0
      have hsetform : (d :: ds).set 0 ((hd :: tl).getLast hne)
          = (hd :: tl).getLast hne :: ds := by simp
      have hdecomp : hd :: tl = (d :: ds) ++ [(hd :: tl).getLast hne] := by
        conv_lhs => rw [(List.dropLast_append_getLast hne).symm]
        rw [hdl]
      constructor
      · rw [hdecomp, ← h1, ← h3]
        have pa : ((d :: ds) ++ [(hd :: tl).getLast hne]).Perm
            ((hd :: tl).getLast hne :: (d :: ds)) :=
          List.perm_append_singleton _ _
        have pb : ((hd :: tl).getLast hne :: (d :: ds)).Perm
            (d :: (hd :: tl).getLast hne :: ds) := List.Perm.swap _ _ _
        refine (pa.trans pb).trans ?_
        refine List.Perm.cons d ?_
        rw [← hsetform]
        exact p1.symm
      · rw [← h3, p2, hsetlen, hdecomp]
        simp

/-- Draining with enough fuel enumerates the heap, up to permutation. -/
theorem popAllGo_perm :
    ∀ (fuel : Nat) (heap : List Item), heap.length ≤ fuel →
      (popAllGo fuel heap).Perm heap := by
  intro fuel
  induction fuel with
  | zero =>
    intro heap hle
    have : heap = [] := List.length_eq_zero.mp (by omega)
    subst this
    simp [popAllGo]
  | succ n ih =>
    intro heap hle
    simp only [popAllGo]
    rcases hp : heappop heap with _ | ⟨it, h2⟩
    · have : heap = [] := (heappop_eq_none heap).mp hp
      subst this
      simp
    · obtain ⟨p1, p2⟩ := heappop_spec heap it h2 hp
      have hlen2 : h2.length ≤ n := by omega
      exact (List.Perm.cons it (ih h2 hlen2)).trans p1.symm

/-- `popAll` enumerates the heap, up to permutation. -/
theorem popAll_perm (heap : List Item) : (popAll heap).Perm heap :=
  popAllGo_perm heap.length heap le_rfl

/-- Re-pushing a list of items produces, up to permutation, the
accumulator plus those items (the rebuild loop of `remove_by_id`). -/
theorem foldl_heappush_perm :
    ∀ (l acc : List Item), (l.foldl heappush acc).Perm (acc ++ l) := by
  intro l
  induction l with
  | nil => intro acc; simp
  | cons x xs ih =>
    intro acc
    have h1 : ((x :: xs).foldl heappush acc) = xs.foldl heappush (heappush acc x) := rfl
    rw [h1]
    refine (ih (heappush acc x)).trans ?_
    have h2 : (heappush acc x ++ xs).Perm ((x :: acc) ++ xs) :=
      List.Perm.append_right xs (heappush_perm acc x).1
    refine h2.trans ?_
    have h3 : ((x :: acc) ++ xs) = x :: (acc ++ xs) := rfl
    rw [h3]
    exact List.perm_middle.symm

end PoolGuy
namespace PoolGuy

/-! ## Substring characterization (Python `in` on strings) -/

/-- `hasSubstr hay needle` holds exactly when `needle` occurs at some
offset of `hay`. -/
theorem hasSubstr_iff (needle : List Char) :
    ∀ hay : List Char,
      hasSubstr hay needle = true ↔
        ∃ i, needle.isPrefixOf (hay.drop i) = true := by
  intro hay
  induction hay with
  | nil =>
    simp only [hasSubstr, Bool.or_eq_true]
    constructor
    · intro h
      rcases h with h | h
      · exact ⟨0, h⟩
      · simp at h
    · rintro ⟨i, hi⟩
      left
      simpa using hi
  | cons c t ih =>
    simp only [hasSubstr, Bool.or_eq_true]
    constructor
    · intro h
      rcases h with h | h
      · exact ⟨0, h⟩
      · obtain ⟨i, hi⟩ := ih.mp h
        exact ⟨i + 1, by simpa using hi⟩
    · rintro ⟨i, hi⟩
      cases i with
      | zero => left; exact hi
      | succ k => right; exact ih.mpr ⟨k, by simpa using hi⟩

/-! ## Claim C3 -/

/-- C3 counterexample: against the claim that a second 401 surfaces as an
authentication failure after exactly one refresh, the transport answering
401, 401, 200 drives `_request` to refresh twice and succeed. -/
theorem C3_counterexample :
    requestFlow 0 [401, 401, 200] = ReqOutcome.success 2 ∧ (2 : Nat) ≠ 1 :=
  ⟨rfl, by decide⟩

/-- C3 amended: every 401 response triggers one `token._refresh()` and one
recursive re-issue, with no depth bound: `k` consecutive 401 responses
produce `k` refreshes and the flow then continues on the remaining
responses; no authentication-failure outcome is ever produced instead. -/
theorem C3_amended (r : Nat) (rest : List Nat) :
    requestFlow r (401 :: rest) = requestFlow (r + 1) rest ∧
    ∀ k, requestFlow r (List.replicate k 401 ++ rest) = requestFlow (r + k) rest := by
  constructor
  · simp [requestFlow]
  · intro k
    induction k generalizing r with
    | zero => simp
    | succ n ih =>
      have h1 : List.replicate (n + 1) 401 ++ rest
          = 401 :: (List.replicate n 401 ++ rest) := by simp [List.replicate]
      rw [h1]
      have h2 : requestFlow r (401 :: (List.replicate n 401 ++ rest))
          = requestFlow (r + 1) (List.replicate n 401 ++ rest) := by
        simp [requestFlow]
      rw [h2, ih (r + 1)]
      congr 1
      omega

/-! ## Claim C5 -/

/-- C5 counterexample: a `message_id` that contains `"test_"` only in a
non-prefix position is NOT archived by the pipeline, although storage is
configured and the alert's `store` is a truthy async method — the source
tests substring containment, not a prefix. -/
theorem C5_counterexample :
    (notificationCall [("chan.t", ⟨3, false, .asyncMethod⟩)]
        ⟨[], [], true, none⟩ "x_test_y" "chan.t" "" 0 "u1").archived = false ∧
    "test_".data.isPrefixOf "x_test_y".data = false ∧
    ((create_alert [("chan.t", ⟨3, false, .asyncMethod⟩)]
        "x_test_y" "chan.t" "" 0).2).store.truthy = true := by
  decide

/-- C5 amended: the archive write is performed iff storage is configured,
the alert's `store` is the (truthy) async store method, and `"test_"`
occurs nowhere in the `message_id` (as a substring, not merely a prefix);
when the same guard passes but `store` is a truthy boolean instead,
`alert.store()` raises `TypeError` — no archive write is performed and the
alert is neither enqueued nor started as a detached task. -/
theorem C5_amended (reg : Registry) (q : APQueue) (mid st ed : String)
    (ts : Int) (fid : String) :
    ((notificationCall reg q mid st ed ts fid).archived = true ↔
      (q.hasStorage = true ∧
       ((create_alert reg mid st ed ts).2).store = StoreAttr.asyncMethod ∧
       ¬ ∃ i, "test_".data.isPrefixOf (mid.data.drop i) = true)) ∧
    (((create_alert reg mid st ed ts).2).store = StoreAttr.boolAttr true →
      q.hasStorage = true →
      (¬ ∃ i, "test_".data.isPrefixOf (mid.data.drop i) = true) →
      (notificationCall reg q mid st ed ts fid).raisedTypeError = true ∧
      (notificationCall reg q mid st ed ts fid).archived = false ∧
      (notificationCall reg q mid st ed ts fid).enqueued = false ∧
      (notificationCall reg q mid st ed ts fid).detachedProcess = false) := by
  have hnex : (¬ ∃ i, "test_".data.isPrefixOf (mid.data.drop i) = true) ↔
      hasSubstr mid.data "test_".data = false := by
    rw [← hasSubstr_iff]
    cases hasSubstr mid.data "test_".data <;> simp
  cases hs : hasSubstr mid.data "test_".data with
  | true =>
    have hex : ∃ i, "test_".data.isPrefixOf (mid.data.drop i) = true :=
      (hasSubstr_iff _ _).mp hs
    constructor
    · have harch : (notificationCall reg q mid st ed ts fid).archived = false := by
        simp only [notificationCall, hs]
        by_cases h : (create_alert reg mid st ed ts).2.queue_skip = false <;>
          simp [h]
      rw [harch]
      simp only [Bool.false_eq_true, false_iff, not_and, not_not]
      intro _ _
      exact hex
    · intro _ _ hno
      exact absurd hex hno
  | false =>
    cases hstorage : q.hasStorage with
    | false =>
      constructor
      · have harch : (notificationCall reg q mid st ed ts fid).archived = false := by
          simp only [notificationCall, hs, hstorage]
          by_cases h : (create_alert reg mid st ed ts).2.queue_skip = false <;>
            simp [h]
        rw [harch]
        simp [hstorage]
      · intro _ hst _
        simp at hst
    | true =>
      cases hstore : (create_alert reg mid st ed ts).2.store with
      | boolAttr b =>
        cases b with
        | false =>
          constructor
          · have harch : (notificationCall reg q mid st ed ts fid).archived
                = false := by
              simp only [notificationCall, hs, hstorage, hstore, StoreAttr.truthy]
              by_cases h : (create_alert reg mid st ed ts).2.queue_skip = false <;>
                simp [h]
            rw [harch]
            simp
          · intro hst
            simp at hst
        | true =>
          have hout : notificationCall reg q mid st ed ts fid =
              { archived := false, enqueued := false, detachedProcess := false,
                raisedTypeError := true, queue := q } := by
            simp [notificationCall, hs, hstorage, hstore, StoreAttr.truthy]
          constructor
          · rw [hout]
            simp
          · intro _ _ _
            rw [hout]
            exact ⟨rfl, rfl, rfl, rfl⟩
      | asyncMethod =>
        constructor
        · have harch : (notificationCall reg q mid st ed ts fid).archived
              = true := by
            simp only [notificationCall, hs, hstorage, hstore, StoreAttr.truthy]
            by_cases h : (create_alert reg mid st ed ts).2.queue_skip = false <;>
              simp [h]
          rw [harch]
          constructor
          · intro _
            exact ⟨rfl, rfl, hnex.mpr hs⟩
          · intro _
            rfl
        · intro hst
          simp at hst

/-- C5 amended, witness: a registered class with `store = True` and a
non-test message id hits the `TypeError` path — nothing archived, nothing
enqueued, nothing detached. -/
theorem C5_amended_witness :
    (notificationCall [("chan.t", ⟨3, false, .boolAttr true⟩)]
        ⟨[], [], true, none⟩ "m1" "chan.t" "" 0 "u1").raisedTypeError = true ∧
    (notificationCall [("chan.t", ⟨3, false, .boolAttr true⟩)]
        ⟨[], [], true, none⟩ "m1" "chan.t" "" 0 "u1").archived = false ∧
    (notificationCall [("chan.t", ⟨3, false, .boolAttr true⟩)]
        ⟨[], [], true, none⟩ "m1" "chan.t" "" 0 "u1").enqueued = false ∧
    (notificationCall [("chan.t", ⟨3, false, .boolAttr true⟩)]
        ⟨[], [], true, none⟩ "m1" "chan.t" "" 0 "u1").detachedProcess = false :=
  (C5_amended [("chan.t", ⟨3, false, .boolAttr true⟩)] ⟨[], [], true, none⟩
      "m1" "chan.t" "" 0 "u1").2 rfl rfl
    (fun hex =>
      absurd ((hasSubstr_iff "test_".data "m1".data).mpr hex) (by decide))

/-! ## Claim C6 -/

/-- C6 counterexample: the fallback `GenericAlert` has priority 3 (the
inherited `Alert` default), not 4, and its `store` attribute is an async
method, hence truthy — not "no store". -/
theorem C6_counterexample :
    lookupClass [] "channel.unknown" = none ∧
    (create_alert [] "m1" "channel.unknown" "" 0).2 = genericAlertClass ∧
    genericAlertClass.priority = 3 ∧ genericAlertClass.priority ≠ 4 ∧
    genericAlertClass.store.truthy = true := by
  decide

/-- C6 amended: a registry miss (exact topic-string lookup) yields a
`GenericAlert` with priority 3, `queue_skip = true`, and a truthy async
`store` method; a hit instantiates exactly the registered class; neither
path errors. -/
theorem C6_amended (reg : Registry) (mid chan dat : String) (ts : Int) :
    (lookupClass reg chan = none →
      create_alert reg mid chan dat ts =
        ({ message_id := mid, channel := chan, data := dat, timestamp := ts,
           priority := 3 }, genericAlertClass) ∧
      genericAlertClass.priority = 3 ∧ genericAlertClass.queue_skip = true ∧
      genericAlertClass.store.truthy = true) ∧
    (∀ c, lookupClass reg chan = some c →
      (create_alert reg mid chan dat ts).2 = c) := by
  constructor
  · intro hmiss
    simp only [create_alert, hmiss]
    exact ⟨rfl, rfl, rfl, rfl⟩
  · intro c hhit
    simp only [create_alert, hhit]

/-- C6 amended, witness: both branches at concrete inputs. -/
theorem C6_amended_witness :
    (create_alert [] "m" "top" "" 0 =
      ({ message_id := "m", channel := "top", data := "", timestamp := 0,
         priority := 3 }, genericAlertClass) ∧
      genericAlertClass.priority = 3 ∧ genericAlertClass.queue_skip = true ∧
      genericAlertClass.store.truthy = true) ∧
    (create_alert [("t", ⟨7, false, .boolAttr false⟩)] "m" "t" "" 0).2 =
      ⟨7, false, .boolAttr false⟩ :=
  ⟨(C6_amended [] "m" "top" "" 0).1 rfl,
   (C6_amended [("t", ⟨7, false, .boolAttr false⟩)] "m" "t" "" 0).2
     ⟨7, false, .boolAttr false⟩ rfl⟩

/-! ## Claim C7 -/

/-- C7: on a successful (200) refresh with a previous token held, a
response that omits `refresh_token` yields a token carrying the previous
refresh token verbatim, with `expires_time = now + expires_in`, persisted
under the storage name `"twitch"`. -/
theorem C7_refresh_preserves_token (p : PyToken) (resp : TokenResponse)
    (now : Int) (r : String) (h200 : resp.status = 200)
    (hr : p.refresh_token = some r) (homit : resp.body.refresh_token = none) :
    tokenRequest (some p) resp now =
      .ok { access_token := resp.body.access_token, refresh_token := some r,
            expires_in := resp.body.expires_in,
            expires_time := some (now + resp.body.expires_in) } "twitch" := by
  simp [tokenRequest, h200, hr, homit]

/-- C7 witness. -/
theorem C7_refresh_preserves_token_witness :
    tokenRequest (some ⟨"old", some "keepme", 100, some 5⟩)
        ⟨200, ⟨"new", none, 3600, none⟩⟩ 1000 =
      .ok { access_token := "new", refresh_token := some "keepme",
            expires_in := 3600, expires_time := some 4600 } "twitch" := by
  have h := C7_refresh_preserves_token ⟨"old", some "keepme", 100, some 5⟩
    ⟨200, ⟨"new", none, 3600, none⟩⟩ 1000 "keepme" rfl rfl rfl
  simpa using h

/-! ## Claim C9 -/

/-- C9: a callback whose query `state` does not equal the generated state
answers HTTP 400 and leaves the authorization state untouched: no code is
stored, the pending future is not resolved, so no token exchange can
follow from that callback. -/
theorem C9_state_mismatch (st : AuthState) (q : CallbackQuery) (gen : String)
    (hgen : st.genState = some gen) (hne : q.state ≠ some gen) :
    callback_handler st q = (400, st) := by
  simp only [callback_handler]
  rw [if_pos]
  rw [hgen]
  exact hne

/-- C9 witness. -/
theorem C9_state_mismatch_witness :
    callback_handler ⟨some "good", none, false, none⟩
        ⟨some "evil", none, some "c0de"⟩ =
      (400, ⟨some "good", none, false, none⟩) :=
  C9_state_mismatch ⟨some "good", none, false, none⟩
    ⟨some "evil", none, some "c0de"⟩ "good" rfl (by decide)

end PoolGuy
namespace PoolGuy

/-! ## Claim C4 -/

/-- Closed form of the `unsubAllEvents` loop: `out` collects exactly the
subscriptions bound to the given session id (any status), and a delete is
issued exactly for the subscriptions whose status is not `"enabled"`
(any session). -/
theorem unsubAllEvents_spec (sid : String) (subs : List ServerSub) :
    (unsubAllEvents subs (some sid)).1
      = subs.filter (fun s => s.transportSessionId == some sid) ∧
    (unsubAllEvents subs (some sid)).2
      = (subs.filter (fun s => !(s.status == "enabled"))).map (·.id) := by
  have key : ∀ (l : List ServerSub) (acc : List ServerSub × List String),
      l.foldl
        (fun acc sub =>
          let keep :=
            match sub.transportSessionId, some sid with
            | some t, some s => s == t
            | _, _ => false
          let out := if keep then acc.1 ++ [sub] else acc.1
          let dels := if sub.status == "enabled" then acc.2 else acc.2 ++ [sub.id]
          (out, dels))
        acc
      = (acc.1 ++ l.filter (fun s => s.transportSessionId == some sid),
         acc.2 ++ (l.filter (fun s => !(s.status == "enabled"))).map (·.id)) := by
    intro l
    induction l with
    | nil => intro acc; simp
    | cons s rest ih =>
      intro acc
      rw [List.foldl_cons, ih]
      have hkeep : (match s.transportSessionId, some sid with
          | some t, some sid2 => sid2 == t
          | _, _ => false) = (s.transportSessionId == some sid) := by
        cases hts : s.transportSessionId with
        | none => rfl
        | some t =>
          by_cases ht : t = sid
          · subst ht; simp
          · simp only [Option.some_beq_some]
            rw [Bool.eq_iff_iff]
            simp [beq_iff_eq, ht, Ne.symm ht]
      rw [hkeep]
      by_cases h1 : (s.transportSessionId == some sid) = true <;>
        by_cases h2 : (s.status == "enabled") = true <;>
          simp [h1, h2, List.filter_cons]
  constructor
  · show (unsubAllEvents subs (some sid)).1 = _
    rw [show unsubAllEvents subs (some sid) = _ from key subs ([], [])]
    simp
  · show (unsubAllEvents subs (some sid)).2 = _
    rw [show unsubAllEvents subs (some sid) = _ from key subs ([], [])]
    simp

/-- C4 counterexample: an `enabled` subscription bound to a *different*
session is neither kept nor deleted (the claim requires deletion), while a
non-`enabled` subscription bound to the *current* session is both kept and
deleted (the claim requires it not be kept). -/
theorem C4_counterexample :
    unsubAllEvents [⟨"s1", "t", "enabled", some "other"⟩] (some "cur")
      = ([], []) ∧
    unsubAllEvents [⟨"s2", "t", "disabled", some "cur"⟩] (some "cur")
      = ([⟨"s2", "t", "disabled", some "cur"⟩], ["s2"]) := by
  decide

/-- C4 amended: reconciliation keeps exactly the subscriptions bound to the
current session id (regardless of status) and deletes exactly those whose
status is not `enabled` (regardless of session); creation runs only when
the kept list is empty, so a rerun against a populated kept list makes
zero create calls. -/
theorem C4_amended (subs : List ServerSub) (sid : String) :
    (unsubAllEvents subs (some sid)).1
      = subs.filter (fun s => s.transportSessionId == some sid) ∧
    (unsubAllEvents subs (some sid)).2
      = (subs.filter (fun s => !(s.status == "enabled"))).map (·.id) ∧
    ∀ channels, (unsubAllEvents subs (some sid)).1 ≠ [] →
      (handle_session_welcome channels subs sid).2.2 = [] := by
  obtain ⟨h1, h2⟩ := unsubAllEvents_spec sid subs
  refine ⟨h1, h2, ?_⟩
  intro channels hne
  simp only [handle_session_welcome]
  rw [if_neg hne]

/-- C4 amended, witness: a populated kept list suppresses creation. -/
theorem C4_amended_witness :
    (unsubAllEvents [⟨"s2", "t", "disabled", some "cur"⟩] (some "cur")).1
      = [⟨"s2", "t", "disabled", some "cur"⟩] ∧
    (handle_session_welcome [("channel.follow", ChanSpec.single)]
        [⟨"s2", "t", "disabled", some "cur"⟩] "cur").2.2 = [] := by
  have h := C4_amended [⟨"s2", "t", "disabled", some "cur"⟩] "cur"
  exact ⟨by rw [h.1]; decide,
         h.2.2 [("channel.follow", ChanSpec.single)] (by decide)⟩

end PoolGuy
namespace PoolGuy

/-! ## Claim C2 -/

/-- `heappush` on the empty heap. -/
theorem heappush_nil (x : Item) : heappush [] x = [x] := rfl

/-- `heappush` on a singleton heap: the new item swaps to the root exactly
when it compares `<` against the resident item. -/
theorem heappush_one (x y : Item) :
    heappush [x] y = if itemLtB y x then [y, x] else [x, y] := by
  simp only [heappush, siftdown, siftdownLoop, List.getD]
  by_cases h : itemLtB y x <;> simp [h]

/-- `heappop` on a two-element heap returns the root. -/
theorem heappop_two (u v : Item) : heappop [u, v] = some (u, [v]) := rfl

/-- `saveState` only touches the snapshot. -/
theorem saveState_heap (q : APQueue) : (saveState q).heap = q.heap := by
  simp only [saveState]; split <;> rfl

/-- The alert `get` returns is the alert `heappop` returns. -/
theorem get_fst_alert (q : APQueue) :
    (q.get).map (fun r => r.1.2) = (heappop q.heap).map (fun p => p.1.2) := by
  simp only [APQueue.get]
  rcases heappop q.heap with _ | ⟨it, h⟩ <;> simp

/-- The Python tuple comparison on two pushed entries is the strict
lexicographic order on `(priority, timestamp)`. -/
theorem itemLtB_true_iff (a b : Alert) :
    itemLtB (b.priority, b) (a.priority, a) = true ↔
      (b.priority < a.priority ∨
        (b.priority = a.priority ∧ b.timestamp < a.timestamp)) := by
  by_cases hp : b.priority = a.priority
  · by_cases hts : b.timestamp = a.timestamp
    · by_cases hmid : b.message_id = a.message_id
      · simp [itemLtB, Alert.eqB, Alert.ltB, hp, hts, hmid]
      · simp [itemLtB, Alert.eqB, Alert.ltB, hp, hts, hmid]
    · simp [itemLtB, Alert.eqB, Alert.ltB, hp, hts]
  · simp [itemLtB, Alert.eqB, Alert.ltB, hp]

/-- C2 counterexample: two alerts with equal priority and equal timestamp;
the first enqueued has message_id `"b"`, the second `"a"`; the first `get`
returns the `"b"` alert even though `"a" < "b"`, so the smaller
`(priority, timestamp, message_id)` triple is NOT returned first. -/
theorem C2_counterexample :
    ((((APQueue.mk [] [] true none).put "u1" ⟨"b", "c", "", 0, 1⟩).1.put "u2"
        ⟨"a", "c", "", 0, 1⟩).1.get).map (fun r => r.1.2) =
      some ⟨"b", "c", "", 0, 1⟩ ∧
    "a".data = ['a'] ∧ "b".data = ['b'] ∧ ('a' : Char) < 'b' ∧
    ("a" : String) ≠ "b" := by
  refine ⟨rfl, rfl, rfl, by decide, by decide⟩

/-- C2 amended: of two alerts put before any `get`, the first `get` returns
the one with the strictly smaller `(priority, timestamp)` pair; the
message_id never participates, and on a full tie the first one enqueued is
returned. -/
theorem C2_amended (a b : Alert) (id1 id2 : String) (hs : Bool)
    (sv : Option (List AlertDict)) :
    ((((APQueue.mk [] [] hs sv).put id1 a).1.put id2 b).1.get).map
        (fun r => r.1.2) =
      some (if b.priority < a.priority ∨
              (b.priority = a.priority ∧ b.timestamp < a.timestamp)
            then b else a) := by
  have h1 : (((APQueue.mk [] [] hs sv).put id1 a).1).heap
      = [(a.priority, a)] := by
    simp only [APQueue.put, saveState_heap]
    exact heappush_nil _
  have h2 : ((((APQueue.mk [] [] hs sv).put id1 a).1.put id2 b).1).heap
      = if itemLtB (b.priority, b) (a.priority, a)
        then [(b.priority, b), (a.priority, a)]
        else [(a.priority, a), (b.priority, b)] := by
    simp only [APQueue.put, saveState_heap, h1]
    exact heappush_one _ _
  rw [get_fst_alert, h2]
  by_cases hcond : (b.priority < a.priority ∨
      (b.priority = a.priority ∧ b.timestamp < a.timestamp))
  · rw [if_pos ((itemLtB_true_iff a b).mpr hcond), if_pos hcond, heappop_two]
    rfl
  · have hfalse : itemLtB (b.priority, b) (a.priority, a) = false := by
      rcases h : itemLtB (b.priority, b) (a.priority, a)
      · rfl
      · exact absurd ((itemLtB_true_iff a b).mp h) hcond
    rw [if_neg (by simp [hfalse]), if_neg hcond, heappop_two]
    rfl

end PoolGuy
namespace PoolGuy

/-! ## Claim C1 -/

/-- Cache invariant preserved across one `handle_message` step: the cache
stays duplicate-free and decomposes as `p ++ x :: s` where everything
inserted after `x` (the list `s`) carries an id from the window `S`; a
step that would evict `x` would force 15 distinct non-`x` ids into `S`,
impossible when `S` has at most 14 distinct entries. -/
theorem c1_step (x : String) (S : List String) (hS : S.dedup.length ≤ 14)
    (c : List String) (hnd : c.Nodup)
    (hdec : ∃ p s, c = p ++ x :: s ∧ x ∉ p ∧ ∀ y ∈ s, y ∈ S)
    (w : WsMessage) (_hw1 : w.message_id ≠ x) (hw2 : w.message_id ∈ S) :
    ((handle_message c w).1).Nodup ∧
    ∃ p s, (handle_message c w).1 = p ++ x :: s ∧ x ∉ p ∧ ∀ y ∈ s, y ∈ S := by
  obtain ⟨p, s, hc, hxp, hsS⟩ := hdec
  by_cases hk : w.message_id ∈ c
  · simp only [handle_message, if_pos hk]
    exact ⟨hnd, p, s, hc, hxp, hsS⟩
  · simp only [handle_message, if_neg hk, maxSizeSetItem, if_neg hk]
    by_cases hlen : 15 ≤ c.length
    · rw [if_pos hlen]
      cases p with
      | nil =>
        exfalso
        simp only [List.nil_append] at hc
        have hsnd : s.Nodup := by
          rw [hc] at hnd
          exact (List.nodup_cons.mp hnd).2
        have hks : w.message_id ∉ s := fun hin => hk (by rw [hc]; right; exact hin)
        have hnodup2 : (s ++ [w.message_id]).Nodup := by
          rw [List.nodup_append]
          refine ⟨hsnd, List.nodup_singleton _, ?_⟩
          intro y hy hy2
          simp only [List.mem_singleton] at hy2
          subst hy2
          exact hks hy
        have hsub : s ++ [w.message_id] ⊆ S.dedup := by
          intro y hy
          rw [List.mem_dedup]
          rcases List.mem_append.mp hy with hy | hy
          · exact hsS y hy
          · simp only [List.mem_singleton] at hy; subst hy; exact hw2
        have hle := (hnodup2.subperm hsub).length_le
        have hslen : s.length + 1 = c.length := by rw [hc]; simp
        simp only [List.length_append, List.length_singleton] at hle
        omega
      | cons h p2 =>
        have hc2 : c = h :: (p2 ++ x :: s) := by rw [hc]; rfl
        have htl : (p2 ++ x :: s).Nodup := by
          rw [hc2] at hnd
          exact (List.nodup_cons.mp hnd).2
        have hkd : w.message_id ∉ p2 ++ x :: s := by
          intro hin
          exact hk (by rw [hc2]; exact List.mem_cons_of_mem _ hin)
        have hcd : c.drop 1 = p2 ++ x :: s := by rw [hc2]; rfl
        rw [hcd]
        refine ⟨?_, p2, s ++ [w.message_id], by simp, ?_, ?_⟩
        · rw [List.nodup_append]
          refine ⟨htl, List.nodup_singleton _, ?_⟩
          intro y hy hy2
          simp only [List.mem_singleton] at hy2
          subst hy2
          exact hkd hy
        · intro hin
          exact hxp (List.mem_cons_of_mem _ hin)
        · intro y hy
          rcases List.mem_append.mp hy with hy | hy
          · exact hsS y hy
          · simp only [List.mem_singleton] at hy; subst hy; exact hw2
    · rw [if_neg hlen]
      refine ⟨?_, p, s ++ [w.message_id], by rw [hc]; simp, hxp, ?_⟩
      · rw [List.nodup_append]
        refine ⟨hnd, List.nodup_singleton _, ?_⟩
        intro y hy hy2
        simp only [List.mem_singleton] at hy2
        subst hy2
        exact hk hy
      · intro y hy
        rcases List.mem_append.mp hy with hy | hy
        · exact hsS y hy
        · simp only [List.mem_singleton] at hy; subst hy; exact hw2

/-- While the invariant holds and no message in the segment carries id
`x`, nothing with id `x` is dispatched, and in particular a closing
re-observation of `x` is dropped. -/
theorem c1_run (x : String) (S : List String) (hS : S.dedup.length ≤ 14)
    (mEnd : WsMessage) (hme : mEnd.message_id = x) :
    ∀ (mid : List WsMessage) (c : List String), c.Nodup →
      (∃ p s, c = p ++ x :: s ∧ x ∉ p ∧ ∀ y ∈ s, y ∈ S) →
      (∀ w ∈ mid, w.message_id ≠ x ∧ w.message_id ∈ S) →
      dispatchCount x c (mid ++ [mEnd]) = 0 := by
  intro mid
  induction mid with
  | nil =>
    intro c hnd hdec _
    obtain ⟨p, s, hc, _, _⟩ := hdec
    have hx : x ∈ c := by
      rw [hc]
      exact List.mem_append_right _ (List.mem_cons_self _ _)
    have hxm : mEnd.message_id ∈ c := by rw [hme]; exact hx
    simp [dispatchCount, handle_message, hxm]
  | cons w ws ih =>
    intro c hnd hdec hall
    have hw := hall w (List.mem_cons_self _ _)
    obtain ⟨hstepnd, hstepdec⟩ := c1_step x S hS c hnd hdec w hw.1 hw.2
    have hcount : dispatchCount x c ((w :: ws) ++ [mEnd])
        = (if (handle_message c w).2 && (w.message_id == x) then 1 else 0)
          + dispatchCount x (handle_message c w).1 (ws ++ [mEnd]) := rfl
    have hbeq : (w.message_id == x) = false := by
      rw [beq_eq_false_iff_ne]
      exact hw.1
    have h0 : (if ((handle_message c w).2 && (w.message_id == x)) = true
        then 1 else 0) = 0 := by rw [hbeq]; simp
    rw [hcount, h0, Nat.zero_add]
    exact ih (handle_message c w).1 hstepnd hstepdec
      (fun w2 hw2 => hall w2 (List.mem_cons_of_mem _ hw2))

/-- Any segment whose inner messages never carry id `x` dispatches id `x`
at most once (only the closing message can). -/
theorem c1_tail_bound (x : String) (mEnd : WsMessage) :
    ∀ (mid : List WsMessage) (c : List String),
      (∀ w ∈ mid, w.message_id ≠ x) →
      dispatchCount x c (mid ++ [mEnd]) ≤ 1 := by
  intro mid
  induction mid with
  | nil =>
    intro c _
    simp only [List.nil_append, dispatchCount]
    split <;> simp [dispatchCount]
  | cons w ws ih =>
    intro c hall
    have hbeq : (w.message_id == x) = false := by
      rw [beq_eq_false_iff_ne]
      exact hall w (List.mem_cons_self _ _)
    have hcount : dispatchCount x c ((w :: ws) ++ [mEnd])
        = (if (handle_message c w).2 && (w.message_id == x) then 1 else 0)
          + dispatchCount x (handle_message c w).1 (ws ++ [mEnd]) := rfl
    have h0 : (if ((handle_message c w).2 && (w.message_id == x)) = true
        then 1 else 0) = 0 := by rw [hbeq]; simp
    rw [hcount, h0, Nat.zero_add]
    exact ih _ (fun w2 hw2 => hall w2 (List.mem_cons_of_mem _ hw2))

/-- The cache right after a fresh insertion of `x` satisfies the invariant
with nothing after `x`. -/
theorem c1_init (seen : List String) (x : String) (hnd : seen.Nodup)
    (hx : x ∉ seen) :
    (maxSizeSetItem 15 seen x).Nodup ∧
    ∃ p, maxSizeSetItem 15 seen x = p ++ x :: [] ∧ x ∉ p := by
  simp only [maxSizeSetItem, if_neg hx]
  by_cases hlen : 15 ≤ seen.length
  · rw [if_pos hlen]
    have hsub : List.Sublist (seen.drop 1) seen := List.drop_sublist 1 seen
    have hxd : x ∉ seen.drop 1 := fun h => hx (hsub.subset h)
    refine ⟨?_, seen.drop 1, rfl, hxd⟩
    rw [List.nodup_append]
    refine ⟨hnd.sublist hsub, List.nodup_singleton _, ?_⟩
    intro y hy hy2
    simp only [List.mem_singleton] at hy2
    subst hy2
    exact hxd hy
  · rw [if_neg hlen]
    refine ⟨?_, seen, rfl, hx⟩
    rw [List.nodup_append]
    refine ⟨hnd, List.nodup_singleton _, ?_⟩
    intro y hy hy2
    simp only [List.mem_singleton] at hy2
    subst hy2
    exact hx hy

/-- C1: an envelope whose id sits in the seen-cache is dropped with no
dispatch; the capacity-15 cache evicts its oldest id on overflow; and a
message id observed a second time within a window holding at most 14
other distinct ids is dispatched at most once overall. -/
theorem C1_dedup_window (seen : List String) (x : String) (m mEnd : WsMessage)
    (mid : List WsMessage) (hnd : seen.Nodup)
    (hm : m.message_id = x) (hme : mEnd.message_id = x)
    (hmid : ∀ w ∈ mid, w.message_id ≠ x)
    (hwindow : (mid.map (fun w => w.message_id)).dedup.length ≤ 14) :
    dispatchCount x seen (m :: (mid ++ [mEnd])) ≤ 1 ∧
    (∀ c w, w.message_id ∈ c → handle_message c w = (c, false)) ∧
    (∀ c k, c.length ≤ 15 → (maxSizeSetItem 15 c k).length ≤ 15) ∧
    (∀ c k, c.length = 15 → k ∉ c → maxSizeSetItem 15 c k = c.drop 1 ++ [k]) := by
  refine ⟨?_, ?_, ?_, ?_⟩
  · have hcount : dispatchCount x seen (m :: (mid ++ [mEnd]))
        = (if (handle_message seen m).2 && (m.message_id == x) then 1 else 0)
          + dispatchCount x (handle_message seen m).1 (mid ++ [mEnd]) := rfl
    by_cases hx : x ∈ seen
    · have hxm : m.message_id ∈ seen := by rw [hm]; exact hx
      have hstep : handle_message seen m = (seen, false) := by
        simp [handle_message, hxm]
      have h0 : (if ((seen, false).2 && (m.message_id == x)) = true
          then 1 else 0) = 0 := by simp
      rw [hcount, hstep, h0, Nat.zero_add]
      exact c1_tail_bound x mEnd mid seen hmid
    · have hxm : m.message_id ∉ seen := by rw [hm]; exact hx
      have hstep : handle_message seen m = (maxSizeSetItem 15 seen x, true) := by
        simp [handle_message, hm, hx]
      rw [hcount, hstep]
      obtain ⟨hnd2, p, hp, hxp⟩ := c1_init seen x hnd hx
      have hrun := c1_run x (mid.map (fun w => w.message_id)) hwindow mEnd hme
        mid (maxSizeSetItem 15 seen x) hnd2
        ⟨p, [], hp, hxp, by simp⟩
        (fun w hw => ⟨hmid w hw, List.mem_map_of_mem _ hw⟩)
      rw [hrun]
      simp [hm]
  · intro c w hw
    simp [handle_message, hw]
  · intro c k hlen
    simp only [maxSizeSetItem]
    by_cases hk : k ∈ c
    · rw [if_pos hk]
      have := List.length_erase_of_mem hk
      have hpos : 1 ≤ c.length := List.length_pos.mpr (List.ne_nil_of_mem hk)
      simp only [List.length_append, List.length_singleton]
      omega
    · rw [if_neg hk]
      by_cases h15 : 15 ≤ c.length
      · rw [if_pos h15]
        simp only [List.length_append, List.length_singleton, List.length_drop]
        omega
      · rw [if_neg h15]
        simp only [List.length_append, List.length_singleton]
        omega
  · intro c k hlen hk
    simp only [maxSizeSetItem, if_neg hk]
    rw [if_pos (by omega)]

/-- C1 witness: the same notification id delivered twice in a row is
dispatched once. -/
theorem C1_dedup_window_witness :
    dispatchCount "n1" []
        (WsMessage.mk "n1" "notification" ::
          ([] ++ [WsMessage.mk "n1" "notification"])) ≤ 1 ∧
    (∀ c w, w.message_id ∈ c → handle_message c w = (c, false)) ∧
    (∀ c k, c.length ≤ 15 → (maxSizeSetItem 15 c k).length ≤ 15) ∧
    (∀ c k, c.length = 15 → k ∉ c → maxSizeSetItem 15 c k = c.drop 1 ++ [k]) :=
  C1_dedup_window [] "n1" (WsMessage.mk "n1" "notification")
    (WsMessage.mk "n1" "notification") [] (by simp) rfl rfl
    (by simp) (by simp)

end PoolGuy
namespace PoolGuy

/-! ## Claim C8 -/

/-- `create_alert` copies the event fields into the alert verbatim; only
`priority` comes from the registry. -/
theorem eventAlert_fields (reg : Registry) (e : NotifEvent) :
    (eventAlert reg e).message_id = e.message_id ∧
    (eventAlert reg e).channel = e.channel ∧
    (eventAlert reg e).data = e.data ∧
    (eventAlert reg e).timestamp = e.timestamp := by
  simp only [eventAlert, create_alert]
  cases lookupClass reg e.channel <;> simp

/-- Rebuilding from the snapshot dict of a factory-made alert re-creates
the same heap entry (the registry resolves the same class again). -/
theorem dictItem_roundtrip (reg : Registry) (e : NotifEvent) :
    dictItem reg ((eventAlert reg e).to_dict) = eventItem reg e := by
  obtain ⟨h1, h2, h3, h4⟩ := eventAlert_fields reg e
  simp only [dictItem, eventItem, Alert.to_dict, h1, h2, h3, h4]
  rfl

/-- The saved dicts of the put loop are the events' alert dicts in put
order. -/
theorem taggedItems_dicts (reg : Registry) (ids : Nat → String) :
    ∀ (evs : List NotifEvent) (n : Nat),
      (taggedItems reg ids n evs).map (fun kv => kv.2.2.to_dict)
        = evs.map (fun e => (eventAlert reg e).to_dict) := by
  intro evs
  induction evs with
  | nil => intro n; rfl
  | cons e rest ih =>
    intro n
    simp only [taggedItems, List.map_cons, ih (n + 1)]
    rfl

/-- Closed form of the put loop: heap, id map, storage flag, snapshot. -/
theorem buildQueueGo_spec (reg : Registry) (ids : Nat → String) :
    ∀ (evs : List NotifEvent) (n : Nat) (q : APQueue),
      q.hasStorage = true →
      (buildQueueGo reg ids n evs q).heap
        = (evs.map (eventItem reg)).foldl heappush q.heap ∧
      (buildQueueGo reg ids n evs q).idMap
        = q.idMap ++ taggedItems reg ids n evs ∧
      (buildQueueGo reg ids n evs q).hasStorage = true ∧
      (buildQueueGo reg ids n evs q).saved
        = (if evs.isEmpty then q.saved
           else some ((q.idMap ++ taggedItems reg ids n evs).map
                        (fun kv => kv.2.2.to_dict))) := by
  intro evs
  induction evs with
  | nil =>
    intro n q hst
    simp [buildQueueGo, taggedItems, hst]
  | cons e rest ih =>
    intro n q hst
    have hq1 : (q.put (ids n) (eventAlert reg e)).1
        = { heap := heappush q.heap (eventItem reg e),
            idMap := q.idMap ++ [(ids n, eventItem reg e)],
            hasStorage := q.hasStorage,
            saved := some ((q.idMap ++ [(ids n, eventItem reg e)]).map
                             (fun kv => kv.2.2.to_dict)) } := by
      simp only [APQueue.put, saveState, hst, if_pos]
      rfl
    have hgo : buildQueueGo reg ids n (e :: rest) q
        = buildQueueGo reg ids (n + 1) rest (q.put (ids n) (eventAlert reg e)).1 := rfl
    obtain ⟨ih1, ih2, ih3, ih4⟩ :=
      ih (n + 1) ((q.put (ids n) (eventAlert reg e)).1) (by rw [hq1]; exact hst)
    rw [hgo]
    refine ⟨?_, ?_, ih3, ?_⟩
    · rw [ih1, hq1]
      simp [List.foldl_cons]
    · rw [ih2, hq1]
      simp [taggedItems, List.append_assoc]
    · rw [ih4, hq1]
      cases rest with
      | nil => simp [taggedItems]
      | cons r rs =>
        simp only [List.isEmpty_cons, if_false, taggedItems]
        simp [taggedItems, List.append_assoc]

/-- Closed form of the restore loop's heap. -/
theorem loadStateGo_heap (reg : Registry) (ids : Nat → String) :
    ∀ (ds : List AlertDict) (n : Nat) (q : APQueue),
      (loadStateGo reg ids n ds q).heap
        = (ds.map (dictItem reg)).foldl heappush q.heap := by
  intro ds
  induction ds with
  | nil => intro n q; rfl
  | cons d rest ih =>
    intro n q
    simp only [loadStateGo, ih (n + 1), List.map_cons, List.foldl_cons]
    rfl

/-- The `get()` order of a queue is the pop order of its heap. -/
theorem drain_eq_popAll (q : APQueue) :
    q.drain = (popAll q.heap).map (fun it => it.2) := by
  have key : ∀ (fuel : Nat) (q : APQueue),
      APQueue.drainGo fuel q = (popAllGo fuel q.heap).map (fun it => it.2) := by
    intro fuel
    induction fuel with
    | zero => intro q; rfl
    | succ n ih =>
      intro q
      simp only [APQueue.drainGo, popAllGo, APQueue.get]
      rcases hp : heappop q.heap with _ | ⟨it, h⟩
      · simp
      · simp only [Option.map_some, List.map_cons]
        rw [ih]
        congr 1
        exact congrArg (fun hh => (popAllGo n hh).map (fun it => it.2))
          (saveState_heap _)
  exact key q.heap.length q

/-- C8: the S6 crash-recovery scenario round-trips (alerts `a` then `b`
come back in the same `get()` order), and in general restoring a snapshot
of a queue populated through the factory with the same registry
reproduces the pre-snapshot `get()` order exactly. -/
theorem C8_snapshot_roundtrip :
    ((buildQueue
        [("chanA", ⟨1, false, .boolAttr true⟩), ("chanB", ⟨2, false, .boolAttr true⟩)]
        (fun _ => "u")
        [⟨"a", "chanA", "", 10⟩, ⟨"b", "chanB", "", 5⟩]).drain.map
          (fun a => a.message_id) = ["a", "b"] ∧
      ((APQueue.mk [] [] true
          (buildQueue
            [("chanA", ⟨1, false, .boolAttr true⟩), ("chanB", ⟨2, false, .boolAttr true⟩)]
            (fun _ => "u")
            [⟨"a", "chanA", "", 10⟩, ⟨"b", "chanB", "", 5⟩]).saved).loadState
          [("chanA", ⟨1, false, .boolAttr true⟩), ("chanB", ⟨2, false, .boolAttr true⟩)]
          (fun _ => "v")).drain.map (fun a => a.message_id) = ["a", "b"]) ∧
    ∀ (reg : Registry) (evs : List NotifEvent) (ids ids2 : Nat → String),
      ((APQueue.mk [] [] true (buildQueue reg ids evs).saved).loadState reg
          ids2).drain
        = (buildQueue reg ids evs).drain := by
  constructor
  · exact ⟨by decide, by decide⟩
  · intro reg evs ids ids2
    obtain ⟨hheap, hmap, hst, hsaved⟩ :=
      buildQueueGo_spec reg ids evs 0
        { heap := [], idMap := [], hasStorage := true, saved := none } rfl
    have hbq : buildQueue reg ids evs
        = buildQueueGo reg ids 0 evs
            { heap := [], idMap := [], hasStorage := true, saved := none } := rfl
    cases evs with
    | nil => rfl
    | cons e rest =>
      rw [hbq]
      simp only [List.isEmpty_cons, Bool.false_eq_true, if_false,
        List.nil_append] at hsaved
      rw [taggedItems_dicts] at hsaved
      have hld : ((APQueue.mk [] [] true
          (buildQueueGo reg ids 0 (e :: rest)
            { heap := [], idMap := [], hasStorage := true,
              saved := none }).saved).loadState reg ids2)
          = loadStateGo reg ids2 0
              ((e :: rest).map (fun ev => (eventAlert reg ev).to_dict))
              (APQueue.mk [] [] true
                (buildQueueGo reg ids 0 (e :: rest)
                  { heap := [], idMap := [], hasStorage := true,
                    saved := none }).saved) := by
        simp only [APQueue.loadState, hsaved]
        rw [if_neg (by simp), if_neg (by simp)]
        rfl
      rw [drain_eq_popAll, drain_eq_popAll, hld, loadStateGo_heap, hheap]
      have hmaps : (((e :: rest).map (fun ev => (eventAlert reg ev).to_dict)).map
          (dictItem reg)) = (e :: rest).map (eventItem reg) := by
        rw [List.map_map]
        apply List.map_congr_left
        intro ev _
        exact dictItem_roundtrip reg ev
      rw [hmaps]

end PoolGuy
namespace PoolGuy

/-! ## Claim C10 -/

/-- `saveState` only touches the snapshot, not the id map. -/
theorem saveState_idMap (q : APQueue) : (saveState q).idMap = q.idMap := by
  simp only [saveState]; split <;> rfl

/-- C10 counterexample: two equal alerts (same priority, timestamp and
message_id) are put under distinct ids; removing the first id empties the
heap entirely (the rebuild filters with `Alert.__eq__`), while the second
id is still in the id map — its entry did NOT remain in the queue. -/
theorem C10_counterexample :
    ((((APQueue.mk [] [] true none).put "id1" ⟨"m", "c", "", 0, 3⟩).1.put "id2"
        ⟨"m", "c", "", 0, 3⟩).1.remove_by_id "id1").1 = true ∧
    ((((APQueue.mk [] [] true none).put "id1" ⟨"m", "c", "", 0, 3⟩).1.put "id2"
        ⟨"m", "c", "", 0, 3⟩).1.remove_by_id "id1").2.heap = [] ∧
    ((((APQueue.mk [] [] true none).put "id1" ⟨"m", "c", "", 0, 3⟩).1.put "id2"
        ⟨"m", "c", "", 0, 3⟩).1.remove_by_id "id1").2.idMap.map
          (fun kv => kv.1) = ["id2"] := by
  decide

/-- C10 amended: an absent id returns `False` and leaves the whole queue
state untouched; a present id returns `True`, removes exactly that entry
from the id map, and removes from the heap every entry tuple-equal
(`(priority, timestamp, message_id)`) to the removed one — all other heap
entries survive as a multiset.  When no other entry is tuple-equal, this
is exactly the claimed frame condition. -/
theorem C10_amended (q : APQueue) (alertId : String) :
    (q.idMap.find? (fun kv => kv.1 == alertId) = none →
      q.remove_by_id alertId = (false, q)) ∧
    (∀ kv, q.idMap.find? (fun kv2 => kv2.1 == alertId) = some kv →
      (q.remove_by_id alertId).1 = true ∧
      (q.remove_by_id alertId).2.idMap
        = q.idMap.eraseP (fun p => p.1 == alertId) ∧
      ((q.remove_by_id alertId).2.heap).Perm
        (q.heap.filter (fun it => !(itemEqB it kv.2)))) := by
  constructor
  · intro hnone
    simp only [APQueue.remove_by_id, hnone]
  · intro kv hfound
    simp only [APQueue.remove_by_id, hfound]
    refine ⟨by simp, ?_, ?_⟩
    · rw [saveState_idMap]
    · rw [saveState_heap]
      refine (foldl_heappush_perm _ []).trans ?_
      simp only [List.nil_append]
      exact List.Perm.filter _ (popAll_perm q.heap)

/-- C10 amended, witness: both branches at concrete inputs. -/
theorem C10_amended_witness :
    (((APQueue.mk [] [] true none).put "id1" ⟨"m", "c", "", 0, 3⟩).1.remove_by_id
        "zz"
      = (false, ((APQueue.mk [] [] true none).put "id1" ⟨"m", "c", "", 0, 3⟩).1)) ∧
    (((((APQueue.mk [] [] true none).put "id1" ⟨"m", "c", "", 0, 3⟩).1.remove_by_id
          "id1").1 = true) ∧
     ((((APQueue.mk [] [] true none).put "id1" ⟨"m", "c", "", 0, 3⟩).1.remove_by_id
          "id1").2.idMap
        = (((APQueue.mk [] [] true none).put "id1"
              ⟨"m", "c", "", 0, 3⟩).1).idMap.eraseP (fun p => p.1 == "id1")) ∧
     (((((APQueue.mk [] [] true none).put "id1"
            ⟨"m", "c", "", 0, 3⟩).1.remove_by_id "id1").2.heap).Perm
        ((((APQueue.mk [] [] true none).put "id1"
             ⟨"m", "c", "", 0, 3⟩).1).heap.filter
          (fun it => !(itemEqB it ((3 : Int), ⟨"m", "c", "", 0, 3⟩)))))) :=
  ⟨(C10_amended _ "zz").1 (by decide),
   (C10_amended _ "id1").2 ("id1", ((3 : Int), ⟨"m", "c", "", 0, 3⟩))
     (by decide)⟩

end PoolGuy
